import Mathlib

/-!
Shallow embedding of the comparison scripts of the asymptotic pouch-cell
repository: `compare_models.py`, `supplementary/plot_discharge_curve.py` and
`supplementary/plot_potentials_concentrations.py`.

Machine floats are modelled as rationals.  The external pybamm/scipy solution
objects (processed variables, the interpolation kernels themselves) are
abstract function parameters, while the glue logic written in the scripts
(shape handling, numpy repeats and transposes, offsets, the voltage-cutoff
mask, the interpolation-kind selection and its data-count requirement) is
translated directly from the source.
-/

namespace PouchCell

/-- numpy: `np.repeat(rows, k, axis=0)` repeats every row `k` times. -/
def npRepeatAxis0 (k : Nat) (rows : List (List ℚ)) : List (List ℚ) :=
  (rows.map (fun r => List.replicate k r)).flatten

/-- numpy: `np.repeat(rows, k, axis=1)` repeats every entry of every row
`k` times. -/
def npRepeatAxis1 (k : Nat) (rows : List (List ℚ)) : List (List ℚ) :=
  rows.map (fun r => (r.map (fun x => List.replicate k x)).flatten)

/-- numpy: `v[:, np.newaxis]` turns a vector into a column matrix with one
entry per row. -/
def colNewaxis (v : List ℚ) : List (List ℚ) :=
  v.map (fun x => [x])

/-- numpy: `np.transpose` of a rectangular matrix given as its list of rows. -/
def npTranspose (rows : List (List ℚ)) : List (List ℚ) :=
  (List.range (rows.headD []).length).map (fun j => rows.map (fun r => r.getD j 0))

/-- numpy: matrix minus scalar, broadcast entrywise. -/
def npSubScalar (c : ℚ) (rows : List (List ℚ)) : List (List ℚ) :=
  rows.map (fun r => r.map (fun x => x - c))

/-- `compare_models.py` lines 103-105: `R_cc = param.process_symbol(
cc_model.variables["Effective current collector resistance"]).evaluate(...)[0][0]`.
The effective current-collector resistance is the `[0][0]` entry of the matrix
evaluated once on the current-collector sub-problem's solution; it takes no
time argument. -/
def R_cc (M : List (List ℚ)) : ℚ :=
  (M.headD []).headD 0

/-- `compare_models.py` lines 121-122: `V_av(t) = V_av_1D(t) - I_av(t) * R_cc`,
the DFNCC corrected average potential.  `V_av_1D` and `I_av` are the processed
terminal voltage and total current density of the Average DFN solve. -/
def V_av (V_av_1D I_av : ℚ → ℚ) (R : ℚ) (t : ℚ) : ℚ :=
  V_av_1D t - I_av t * R

/-- `compare_models.py` line 144: for the negative current collector potential
the DFNCC curve is `potentials[var]` itself, plotted with no offset. -/
def pybamm_bar_var_fun_neg (pneg : ℚ → ℚ → ℚ) : ℚ → ℚ → ℚ :=
  pneg

/-- `compare_models.py` lines 199-201: `U_ref = U_p_ref - U_n_ref`. -/
def U_ref (U_p_ref U_n_ref : ℚ) : ℚ :=
  U_p_ref - U_n_ref

/-- `compare_models.py` lines 204-205: `V_av_dim(t) = U_ref + V_av(t) * pot_scale`,
the dimensional corrected average voltage. -/
def V_av_dim (U_p_ref U_n_ref pot_scale : ℚ) (V_av_1D I_av : ℚ → ℚ) (R t : ℚ) : ℚ :=
  U_ref U_p_ref U_n_ref + V_av V_av_1D I_av R t * pot_scale

/-- `compare_models.py` lines 208-209: the positive current collector potential
curve is the raw DFNCC potential minus the dimensional corrected average
voltage. -/
def pybamm_bar_var_fun_pos (pbar : ℚ → ℚ → ℚ) (U_p_ref U_n_ref pot_scale : ℚ)
    (V_av_1D I_av : ℚ → ℚ) (R : ℚ) (t z : ℚ) : ℚ :=
  pbar t z - V_av_dim U_p_ref U_n_ref pot_scale V_av_1D I_av R t

/-- `compare_models.py` lines 248-252: broadcast of the laterally uniform
through-cell current density across the current-collector axis, with the
explicit single-instant branch. -/
def pybamm_bar_var_fun_current (I_av : ℚ → ℚ) (t z : List ℚ) : List (List ℚ) :=
  if t.length = 1 then
    npRepeatAxis0 z.length (colNewaxis (t.map I_av))
  else
    npTranspose (npRepeatAxis1 z.length (colNewaxis (t.map I_av)))

/-- `compare_models.py` lines 279-280: COMSOL temperature with the reference
temperature subtracted. -/
def comsol_var_fun_temperature (comsol_var : ℚ → ℚ → ℚ) (T_ref t z : ℚ) : ℚ :=
  comsol_var t z - T_ref

/-- `compare_models.py` lines 291-292: 1+1D DFN temperature with the reference
temperature subtracted. -/
def pybamm_var_fun_temperature (pybamm_var : ℚ → ℚ → ℚ) (T_ref t z : ℚ) : ℚ :=
  pybamm_var t z - T_ref

/-- `compare_models.py` lines 303-307: broadcast of the lumped averaged
temperature across the current-collector axis, minus the reference
temperature, with the explicit single-instant branch. -/
def pybamm_bar_var_fun_temperature (T_av : ℚ → ℚ) (T_ref : ℚ) (t z : List ℚ) :
    List (List ℚ) :=
  if t.length = 1 then
    npSubScalar T_ref (npRepeatAxis0 z.length (colNewaxis (t.map T_av)))
  else
    npSubScalar T_ref (npTranspose (npRepeatAxis1 z.length (colNewaxis (t.map T_av))))

/-- `plot_discharge_curve.py` line 106: `voltage_OK = voltage[voltage > V_cutoff]`,
the entries of the evaluated terminal voltage strictly above the cutoff. -/
def voltage_OK (voltage : List ℚ) (V_cutoff : ℚ) : List ℚ :=
  voltage.filter (fun v => decide (V_cutoff < v))

/-- `plot_discharge_curve.py` line 107: `time = time[0 : len(voltage_OK)]`,
the count-based prefix of the solution times. -/
def restrictedTime (voltage time : List ℚ) (V_cutoff : ℚ) : List ℚ :=
  time.take (voltage_OK voltage V_cutoff).length

/-- The index-mask selection of the times whose voltage is strictly above the
cutoff (what a boolean mask on `time` itself would keep). -/
def aboveCutoffSamples (voltage time : List ℚ) (V_cutoff : ℚ) : List ℚ :=
  ((time.zip voltage).filter (fun p => decide (V_cutoff < p.2))).map Prod.fst

/-- The interpolation kinds the scripts pass to `scipy.interpolate.interp1d`. -/
inductive InterpKind
  | linear
  | cubic

/-- Minimum number of data points `scipy.interpolate.interp1d` accepts for
each kind; with fewer points the constructor raises `ValueError` (the cubic
spline needs at least 4 samples, linear at least 2). -/
def minPoints : InterpKind → Nat
  | InterpKind.linear => 2
  | InterpKind.cubic => 4

/-- `plot_potentials_concentrations.py` line 66 and `plot_discharge_curve.py`
line 68: `interp_kind = "cubic"`, fixed for both interpolation stages. -/
def interp_kind : InterpKind :=
  InterpKind.cubic

/-- `scipy.interpolate.interp1d(xs, ys, kind=kind)` on 1D data: fails (raises)
when there are fewer data points than the kind requires, otherwise yields the
interpolant; `ev` is the abstract evaluation kernel of the scipy library. -/
def interp1d (ev : InterpKind → List ℚ → List ℚ → ℚ → ℚ) (kind : InterpKind)
    (xs ys : List ℚ) : Option (ℚ → ℚ) :=
  if xs.length < minPoints kind then none else some (ev kind xs ys)

/-- `scipy.interpolate.interp1d(xs, V, axis=0, kind=kind)` on a matrix whose
rows are indexed by `xs` (space) and columns by time: interpolates every time
column along the spatial axis; evaluation at a query vector returns one row
per query point. -/
def interp1dAxis0 (ev : InterpKind → List ℚ → List ℚ → ℚ → ℚ) (kind : InterpKind)
    (xs : List ℚ) (V : List (List ℚ)) : Option (List ℚ → List (List ℚ)) :=
  if xs.length < minPoints kind then none
  else some (fun qs => qs.map (fun q => (npTranspose V).map (fun col => ev kind xs col q)))

/-- `scipy.interpolate.interp1d(ts, V, kind=kind)` on a matrix with default
`axis=-1` (time is the last axis): interpolates every row along time. -/
def interp1dLastAxis (ev : InterpKind → List ℚ → List ℚ → ℚ → ℚ) (kind : InterpKind)
    (xs : List ℚ) (V : List (List ℚ)) : Option (ℚ → List ℚ) :=
  if xs.length < minPoints kind then none
  else some (fun t => V.map (fun row => ev kind xs row t))

/-- `plot_potentials_concentrations.py` lines 85-88: the simulation-side query
coordinates, `mesh.combine_submeshes(*domain)[0].edges * L_x` (or `.nodes * L_x`),
made dimensional by the length scale. -/
def pybamm_x (nodes edges : List ℚ) (L_x : ℚ) (eval_on_edges : Bool) : List ℚ :=
  if eval_on_edges then edges.map (fun x => x * L_x) else nodes.map (fun x => x * L_x)

/-- `plot_potentials_concentrations.py` line 89:
`variable = interp.interp1d(comsol_x, variable, axis=0, kind=interp_kind)(pybamm_x)`,
the one-time spatial remap of the reference field onto the simulation
coordinates, performed in the body of `get_interp_fun`. -/
def spatialRemap (ev : InterpKind → List ℚ → List ℚ → ℚ → ℚ) (comsol_x : List ℚ)
    (V : List (List ℚ)) (qs : List ℚ) : Option (List (List ℚ)) :=
  (interp1dAxis0 ev interp_kind comsol_x V).map (fun f => f qs)

/-- `plot_potentials_concentrations.py` lines 91-92: `myinterp(t)` interpolates
the pre-remapped matrix along the time axis and appends the trailing
`[:, np.newaxis]`.  The time interpolant is rebuilt at every query, so a short
time base fails at query time, not at construction. -/
def myinterp (ev : InterpKind → List ℚ → List ℚ → ℚ → ℚ) (comsol_t : List ℚ)
    (remapped : List (List ℚ)) (t : ℚ) : Option (List (List ℚ)) :=
  (interp1dLastAxis ev interp_kind comsol_t remapped).map (fun f => colNewaxis (f t))

/-- `plot_potentials_concentrations.py` lines 69-97: `get_interp_fun` remaps
the reference variable spatially once, then returns the time-only query
function. -/
def get_interp_fun (ev : InterpKind → List ℚ → List ℚ → ℚ → ℚ)
    (comsol_x comsol_t : List ℚ) (V : List (List ℚ)) (nodes edges : List ℚ)
    (L_x : ℚ) (eval_on_edges : Bool) : Option (ℚ → Option (List (List ℚ))) :=
  (spatialRemap ev comsol_x V (pybamm_x nodes edges L_x eval_on_edges)).map
    (fun remapped => myinterp ev comsol_t remapped)

lemma getD_replicate_lt {α : Type} (x d : α) {k j : Nat} (h : j < k) :
    (List.replicate k x).getD j d = x := by
  rw [List.getD_eq_getElem _ _ (by simpa using h)]
  simp

lemma getD_map_lt {α β : Type} (f : α → β) (l : List α) {j : Nat}
    (hj : j < l.length) (d : β) (d' : α) :
    (l.map f).getD j d = f (l.getD j d') := by
  rw [List.getD_eq_getElem _ _ (by simpa using hj), List.getD_eq_getElem _ _ hj]
  simp

lemma npRepeatAxis0_colNewaxis (k : Nat) (x : ℚ) :
    npRepeatAxis0 k (colNewaxis [x]) = List.replicate k [x] := by
  simp [npRepeatAxis0, colNewaxis]

lemma npRepeatAxis1_colNewaxis (k : Nat) (v : List ℚ) :
    npRepeatAxis1 k (colNewaxis v) = v.map (fun x => List.replicate k x) := by
  simp [npRepeatAxis1, colNewaxis, List.map_map, Function.comp]

lemma npTranspose_repCols (k : Nat) (v : List ℚ) (hv : v ≠ []) :
    npTranspose (v.map (fun x => List.replicate k x)) = List.replicate k v := by
  obtain ⟨a, w, rfl⟩ := List.exists_cons_of_ne_nil hv
  unfold npTranspose
  rw [List.map_cons]
  simp only [List.headD_cons, List.length_replicate]
  rw [List.eq_replicate_iff]
  refine ⟨by simp, ?_⟩
  intro b hb
  obtain ⟨j, hjm, rfl⟩ := List.mem_map.mp hb
  have hj : j < k := List.mem_range.mp hjm
  simp only [List.map_cons, List.map_map, Function.comp]
  rw [getD_replicate_lt a 0 hj]
  congr 1
  have hcongr : List.map ((fun r => r.getD j 0) ∘ fun x => List.replicate k x) w =
      List.map id w :=
    List.map_congr_left (fun x _ => getD_replicate_lt x 0 hj)
  rw [hcongr, List.map_id]

/-- For a nonempty time vector both branches of the broadcast produce the
same matrix: one copy of the scalar time series per lateral point. -/
lemma broadcast_eq (f : ℚ → ℚ) (t z : List ℚ) (ht : t ≠ []) :
    pybamm_bar_var_fun_current f t z = List.replicate z.length (t.map f) := by
  unfold pybamm_bar_var_fun_current
  by_cases h : t.length = 1
  · obtain ⟨a, rfl⟩ := List.length_eq_one.mp h
    simp [npRepeatAxis0_colNewaxis]
  · rw [if_neg h, npRepeatAxis1_colNewaxis, npTranspose_repCols _ _ (by simpa using ht)]

lemma temp_eq_sub (T_av : ℚ → ℚ) (T_ref : ℚ) (t z : List ℚ) :
    pybamm_bar_var_fun_temperature T_av T_ref t z =
      npSubScalar T_ref (pybamm_bar_var_fun_current T_av t z) := by
  unfold pybamm_bar_var_fun_temperature pybamm_bar_var_fun_current
  by_cases h : t.length = 1 <;> simp [h]

lemma broadcast_temp_eq (T_av : ℚ → ℚ) (T_ref : ℚ) (t z : List ℚ) (ht : t ≠ []) :
    pybamm_bar_var_fun_temperature T_av T_ref t z =
      List.replicate z.length (t.map (fun x => T_av x - T_ref)) := by
  rw [temp_eq_sub, broadcast_eq T_av t z ht]
  unfold npSubScalar
  rw [List.map_replicate, List.map_map]
  rfl

/-- Claim C1: the DFNCC corrected average potential is, for every query time
`t`, `V_av(t) = V_terminal_average(t) - I_total(t) * R_effective`, where the
effective resistance `R_cc M` is a single scalar extracted once from the
current-collector sub-problem's evaluated solution matrix `M` and takes no
time argument. -/
theorem C1_corrected_average_potential (V_av_1D I_av : ℚ → ℚ) (M : List (List ℚ))
    (t : ℚ) :
    V_av V_av_1D I_av (R_cc M) t = V_av_1D t - I_av t * R_cc M :=
  rfl

/-- Claim C2: for both laterally uniform quantities (through-cell current
density and lumped temperature) and every spatial vector `z`, the
single-instant branch `reconstruct([t0], z)` agrees with the general branch
`reconstruct([t0, t0], z)` restricted to its first time column. -/
theorem C2_single_instant_branch_agrees (I_av T_av : ℚ → ℚ) (T_ref t0 : ℚ)
    (z : List ℚ) :
    pybamm_bar_var_fun_current I_av [t0] z =
      (pybamm_bar_var_fun_current I_av [t0, t0] z).map (fun row => row.take 1)
    ∧ pybamm_bar_var_fun_temperature T_av T_ref [t0] z =
      (pybamm_bar_var_fun_temperature T_av T_ref [t0, t0] z).map
        (fun row => row.take 1) := by
  constructor
  · rw [broadcast_eq I_av [t0] z (by simp), broadcast_eq I_av [t0, t0] z (by simp)]
    simp [List.map_replicate]
  · rw [broadcast_temp_eq T_av T_ref [t0] z (by simp),
      broadcast_temp_eq T_av T_ref [t0, t0] z (by simp)]
    simp [List.map_replicate]

/-- Claim C3: for every time vector `t` and every lateral query vector `z`,
the broadcast reconstruction of the laterally invariant through-cell current
density returns identical rows at any two lateral indices: the lateral axis
has zero variance. -/
theorem C3_lateral_zero_variance (I_av : ℚ → ℚ) (t z : List ℚ) (i j : Nat)
    (ht : t ≠ []) (hi : i < z.length) (hj : j < z.length) :
    (pybamm_bar_var_fun_current I_av t z).getD i [] =
      (pybamm_bar_var_fun_current I_av t z).getD j [] := by
  rw [broadcast_eq I_av t z ht, getD_replicate_lt _ _ hi, getD_replicate_lt _ _ hj]

/-- Witness for C3 at a concrete input. -/
theorem C3_lateral_zero_variance_witness :
    (pybamm_bar_var_fun_current (fun x => x) [1, 2] [5, 6, 7]).getD 0 [] =
      (pybamm_bar_var_fun_current (fun x => x) [1, 2] [5, 6, 7]).getD 2 [] :=
  C3_lateral_zero_variance (fun x => x) [1, 2] [5, 6, 7] 0 2 (by decide)
    (by decide) (by decide)

/-- Claim C4: the negative-collector DFNCC potential is plotted as-is
(referenced to zero), while the positive-collector comparison value is the raw
reconstructed potential minus the dimensionalized corrected average voltage
`V_av_dim(t)`, for every `(t, z)`. -/
theorem C4_collector_referencing (pneg pbar : ℚ → ℚ → ℚ)
    (U_p_ref U_n_ref pot_scale : ℚ) (V_av_1D I_av : ℚ → ℚ) (R : ℚ) :
    (∀ t z, pybamm_bar_var_fun_neg pneg t z = pneg t z)
    ∧ (∀ t z, pybamm_bar_var_fun_pos pbar U_p_ref U_n_ref pot_scale V_av_1D I_av R t z =
        pbar t z - V_av_dim U_p_ref U_n_ref pot_scale V_av_1D I_av R t) :=
  ⟨fun _ _ => rfl, fun _ _ => rfl⟩

/-- Claim C5: when both the time and the lateral arguments are vectors (time
nonempty), the broadcast reconstruction yields a full outer-product grid: one
row per lateral point, one column per time, with the entry at lateral index
`i` and time index `j` equal to the scalar series at time `t j`. -/
theorem C5_outer_product_grid (I_av : ℚ → ℚ) (t z : List ℚ) (i j : Nat)
    (ht : t ≠ []) (hi : i < z.length) (hj : j < t.length) :
    (pybamm_bar_var_fun_current I_av t z).length = z.length
    ∧ (∀ row ∈ pybamm_bar_var_fun_current I_av t z, row.length = t.length)
    ∧ ((pybamm_bar_var_fun_current I_av t z).getD i []).getD j 0 =
        I_av (t.getD j 0) := by
  have hM := broadcast_eq I_av t z ht
  refine ⟨?_, ?_, ?_⟩
  · rw [hM, List.length_replicate]
  · intro row hrow
    rw [hM] at hrow
    rw [List.eq_of_mem_replicate hrow, List.length_map]
  · rw [hM, getD_replicate_lt _ _ hi, getD_map_lt I_av t hj 0 0]

/-- Witness for C5 at a concrete input. -/
theorem C5_outer_product_grid_witness :
    (pybamm_bar_var_fun_current (fun x => x + 1) [1, 2] [5, 6, 7]).length =
      ([5, 6, 7] : List ℚ).length
    ∧ (∀ row ∈ pybamm_bar_var_fun_current (fun x => x + 1) [1, 2] [5, 6, 7],
        row.length = ([1, 2] : List ℚ).length)
    ∧ ((pybamm_bar_var_fun_current (fun x => x + 1) [1, 2] [5, 6, 7]).getD 1 []).getD 0 0 =
        (fun x => x + 1) (([1, 2] : List ℚ).getD 0 0) :=
  C5_outer_product_grid (fun x => x + 1) [1, 2] [5, 6, 7] 1 0 (by decide)
    (by decide) (by decide)

/-- Claim C6, counterexample: with a backing field of only 3 spatial nodes the
construction fails (`interp1d` with the fixed cubic kind rejects fewer than 4
samples); there is no degradation to linear, contradicting the claim that
evaluation still succeeds using a degraded linear rule. -/
theorem C6_counterexample :
    get_interp_fun (fun _ _ _ _ => 0) [0, 1, 2] [0, 1, 2, 3] [[1], [1], [1]]
      [0] [0] 1 false = none :=
  rfl

/-- Claim C6, amended: evaluation is two-stage interpolation with the kind
fixed to cubic at both stages; a field with fewer than 4 spatial nodes fails
at construction and fewer than 4 time samples makes every query fail — there
is no linear fallback. -/
theorem C6_cubic_no_degradation (ev : InterpKind → List ℚ → List ℚ → ℚ → ℚ)
    (comsol_x comsol_t : List ℚ) (V M : List (List ℚ))
    (nodes edges voltage : List ℚ) (L_x : ℚ) (b : Bool) (t : ℚ) :
    interp_kind = InterpKind.cubic
    ∧ (get_interp_fun ev comsol_x comsol_t V nodes edges L_x b = none ↔
        comsol_x.length < 4)
    ∧ (myinterp ev comsol_t M t = none ↔ comsol_t.length < 4)
    ∧ (interp1d ev interp_kind comsol_t voltage = none ↔ comsol_t.length < 4) := by
  refine ⟨rfl, ?_, ?_, ?_⟩
  · by_cases h : comsol_x.length < 4 <;>
      simp [get_interp_fun, spatialRemap, interp1dAxis0, interp_kind, minPoints, h]
  · by_cases h : comsol_t.length < 4 <;>
      simp [myinterp, interp1dLastAxis, interp_kind, minPoints, h]
  · by_cases h : comsol_t.length < 4 <;>
      simp [interp1d, interp_kind, minPoints, h]

/-- Claim C7: the same reference temperature is subtracted from the reference
field, the resolved simulation field and the broadcast averaged field, so for
every matched point the absolute difference of any two offset-adjusted values
equals the absolute difference of the corresponding raw values. -/
theorem C7_temperature_offset_cancels (comsol_var pybamm_var : ℚ → ℚ → ℚ)
    (T_av : ℚ → ℚ) (T_ref : ℚ) (t z : List ℚ) (i j : Nat)
    (ht : t ≠ []) (hi : i < z.length) (hj : j < t.length) :
    (∀ a b : ℚ,
        |comsol_var_fun_temperature comsol_var T_ref a b -
            pybamm_var_fun_temperature pybamm_var T_ref a b| =
          |comsol_var a b - pybamm_var a b|)
    ∧ ((pybamm_bar_var_fun_temperature T_av T_ref t z).getD i []).getD j 0 =
        T_av (t.getD j 0) - T_ref
    ∧ |comsol_var_fun_temperature comsol_var T_ref (t.getD j 0) (z.getD i 0) -
          ((pybamm_bar_var_fun_temperature T_av T_ref t z).getD i []).getD j 0| =
        |comsol_var (t.getD j 0) (z.getD i 0) - T_av (t.getD j 0)|
    ∧ |pybamm_var_fun_temperature pybamm_var T_ref (t.getD j 0) (z.getD i 0) -
          ((pybamm_bar_var_fun_temperature T_av T_ref t z).getD i []).getD j 0| =
        |pybamm_var (t.getD j 0) (z.getD i 0) - T_av (t.getD j 0)| := by
  have hentry : ((pybamm_bar_var_fun_temperature T_av T_ref t z).getD i []).getD j 0 =
      T_av (t.getD j 0) - T_ref := by
    rw [broadcast_temp_eq T_av T_ref t z ht, getD_replicate_lt _ _ hi,
      getD_map_lt (fun x => T_av x - T_ref) t hj 0 0]
  refine ⟨?_, hentry, ?_, ?_⟩
  · intro a b
    unfold comsol_var_fun_temperature pybamm_var_fun_temperature
    congr 1
    ring
  · rw [hentry]
    unfold comsol_var_fun_temperature
    congr 1
    ring
  · rw [hentry]
    unfold pybamm_var_fun_temperature
    congr 1
    ring

/-- Witness for C7 at a concrete input. -/
theorem C7_temperature_offset_cancels_witness :
    (∀ a b : ℚ,
        |comsol_var_fun_temperature (fun a b => a + b) 2 a b -
            pybamm_var_fun_temperature (fun a b => a * b) 2 a b| =
          |(fun a b : ℚ => a + b) a b - (fun a b : ℚ => a * b) a b|)
    ∧ ((pybamm_bar_var_fun_temperature (fun x => x) 2 [1, 3] [5]).getD 0 []).getD 1 0 =
        (fun x : ℚ => x) (([1, 3] : List ℚ).getD 1 0) - 2
    ∧ |comsol_var_fun_temperature (fun a b => a + b) 2 (([1, 3] : List ℚ).getD 1 0)
          (([5] : List ℚ).getD 0 0) -
          ((pybamm_bar_var_fun_temperature (fun x => x) 2 [1, 3] [5]).getD 0 []).getD 1 0| =
        |(fun a b : ℚ => a + b) (([1, 3] : List ℚ).getD 1 0) (([5] : List ℚ).getD 0 0) -
          (fun x : ℚ => x) (([1, 3] : List ℚ).getD 1 0)|
    ∧ |pybamm_var_fun_temperature (fun a b => a * b) 2 (([1, 3] : List ℚ).getD 1 0)
          (([5] : List ℚ).getD 0 0) -
          ((pybamm_bar_var_fun_temperature (fun x => x) 2 [1, 3] [5]).getD 0 []).getD 1 0| =
        |(fun a b : ℚ => a * b) (([1, 3] : List ℚ).getD 1 0) (([5] : List ℚ).getD 0 0) -
          (fun x : ℚ => x) (([1, 3] : List ℚ).getD 1 0)| :=
  C7_temperature_offset_cancels (fun a b => a + b) (fun a b => a * b) (fun x => x)
    2 [1, 3] [5] 0 1 (by decide) (by decide) (by decide)

/-- Claim C8: a non-dimensional potential is dimensionalized by the affine
rule `U_ref + phi * pot_scale` with `U_ref = U_p_ref - U_n_ref`, and this is
applied, for every `t`, to the corrected average voltage `V_av(t)` when
re-referencing the positive-collector potential. -/
theorem C8_dimensional_potential_rule (pbar : ℚ → ℚ → ℚ)
    (U_p_ref U_n_ref pot_scale : ℚ) (V_av_1D I_av : ℚ → ℚ) (R : ℚ) :
    (∀ t, V_av_dim U_p_ref U_n_ref pot_scale V_av_1D I_av R t =
        (U_p_ref - U_n_ref) + V_av V_av_1D I_av R t * pot_scale)
    ∧ (∀ t z, pybamm_bar_var_fun_pos pbar U_p_ref U_n_ref pot_scale V_av_1D I_av R t z =
        pbar t z - ((U_p_ref - U_n_ref) + V_av V_av_1D I_av R t * pot_scale)) :=
  ⟨fun _ => rfl, fun _ _ => rfl⟩

/-- Claim C9: when the reference field has enough nodes, `get_interp_fun`
equals the time-only query function built over the spatially pre-remapped
matrix: the remap interpolates the reference values from the (dimensional)
reference coordinates onto the simulation node or edge coordinates multiplied
by the physical length scale, and every query afterwards only interpolates
along the time axis of those pre-remapped values. -/
theorem C9_eager_spatial_remap (ev : InterpKind → List ℚ → List ℚ → ℚ → ℚ)
    (comsol_x comsol_t : List ℚ) (V : List (List ℚ)) (nodes edges : List ℚ)
    (L_x : ℚ) (b : Bool) (h : 4 ≤ comsol_x.length) :
    get_interp_fun ev comsol_x comsol_t V nodes edges L_x b =
      some (myinterp ev comsol_t
        (((if b then edges else nodes).map (fun x => x * L_x)).map
          (fun q => (npTranspose V).map (fun col => ev InterpKind.cubic comsol_x col q)))) := by
  have hx : ¬ comsol_x.length < minPoints interp_kind := by
    simp only [interp_kind, minPoints]
    omega
  unfold get_interp_fun spatialRemap interp1dAxis0 pybamm_x
  rw [if_neg hx]
  cases b <;> simp [interp_kind]

/-- Witness for C9 at a concrete input. -/
theorem C9_eager_spatial_remap_witness :
    get_interp_fun (fun _ _ _ x => x) [0, 1, 2, 3] [0, 1] [[1, 1], [2, 2]]
      [1] [2] 3 false =
      some (myinterp (fun _ _ _ x => x) [0, 1]
        ((((if false then [2] else [1] : List ℚ)).map (fun x => x * 3)).map
          (fun q => (npTranspose [[1, 1], [2, 2]]).map
            (fun col => (fun _ _ _ x => x) InterpKind.cubic [0, 1, 2, 3] col q)))) :=
  C9_eager_spatial_remap (fun _ _ _ x => x) [0, 1, 2, 3] [0, 1] [[1, 1], [2, 2]]
    [1] [2] 3 false (by decide)

/-- Claim C10: the restricted time vector is the count-based prefix of the
solution times, `time[0 : len(voltage[voltage > V_cutoff])]`; when the voltage
series crosses the cutoff at most once from above (all above-cutoff entries
first, then all others) this prefix is exactly the set of above-cutoff
samples, while a series that recrosses the cutoff shows the prefix and the
index mask differ. -/
theorem C10_cutoff_count_based (c : ℚ) (vs₁ vs₂ ts₁ ts₂ : List ℚ)
    (h₁ : ∀ v ∈ vs₁, c < v) (h₂ : ∀ v ∈ vs₂, ¬ c < v)
    (hlen : ts₁.length = vs₁.length) :
    (∀ voltage time : List ℚ,
        restrictedTime voltage time c =
          time.take (voltage.countP (fun v => decide (c < v))))
    ∧ restrictedTime (vs₁ ++ vs₂) (ts₁ ++ ts₂) c = ts₁
    ∧ aboveCutoffSamples (vs₁ ++ vs₂) (ts₁ ++ ts₂) c = ts₁
    ∧ restrictedTime [4, 2, 4] [10, 20, 30] 3 ≠
        aboveCutoffSamples [4, 2, 4] [10, 20, 30] 3 := by
  have hfil₁ : vs₁.filter (fun v => decide (c < v)) = vs₁ :=
    List.filter_eq_self.mpr (fun a ha => decide_eq_true (h₁ a ha))
  have hfil₂ : vs₂.filter (fun v => decide (c < v)) = [] :=
    List.filter_eq_nil_iff.mpr (fun a ha => by simpa using h₂ a ha)
  refine ⟨?_, ?_, ?_, ?_⟩
  · intro voltage time
    simp [restrictedTime, voltage_OK, List.countP_eq_length_filter]
  · rw [restrictedTime, voltage_OK, List.filter_append, hfil₁, hfil₂,
      List.append_nil, ← hlen, List.take_left]
  · rw [aboveCutoffSamples, List.zip_append hlen, List.filter_append]
    have hz₁ : (ts₁.zip vs₁).filter (fun p => decide (c < p.2)) = ts₁.zip vs₁ :=
      List.filter_eq_self.mpr
        (fun p hp => decide_eq_true (h₁ p.2 (List.of_mem_zip hp).2))
    have hz₂ : (ts₂.zip vs₂).filter (fun p => decide (c < p.2)) = [] :=
      List.filter_eq_nil_iff.mpr
        (fun p hp => by simpa using h₂ p.2 (List.of_mem_zip hp).2)
    rw [hz₁, hz₂, List.append_nil, List.map_fst_zip _ _ hlen.le]
  · decide

/-- Witness for C10 at a concrete input. -/
theorem C10_cutoff_count_based_witness :
    restrictedTime ([4] ++ [2]) ([10] ++ [20]) 3 = [10] :=
  (C10_cutoff_count_based 3 [4] [2] [10] [20] (by decide) (by decide) (by decide)).2.1

end PouchCell
